import Mathlib

/-!
Verification of the Nexus package manager (`src/package_manager.py`,
class `NxsPackageManager`).

The Python code is shallowly embedded: every filesystem- or
process-touching operation becomes a pure function over an explicit
state (`PMState`) and an environment (`Env`) that fixes the outcome of
the external world (the npm registry, the filesystem outside the
manager's own stores, symlink support).  JSON dictionaries become
association lists with Python-dict lookup/insert semantics.
-/

/-! ## Association-list dictionaries (Python `dict` / JSON objects) -/

/-- First-match lookup, as in a Python dict (keys are unique there,
so first match is the only match). -/
def dictLookup {α : Type} : List (String × α) → String → Option α
  | [], _ => none
  | (k, v) :: t, q => if k = q then some v else dictLookup t q

/-- Python `d[q] = v` on a dict: replace in place if the key is
present, else append (insertion order preserved). -/
def dictSet {α : Type} : List (String × α) → String → α → List (String × α)
  | [], q, v => [(q, v)]
  | (k, w) :: t, q, v => if k = q then (k, v) :: t else (k, w) :: dictSet t q v

/-- Python `del d[q]` (removes every binding of the key; on unique-key dicts
this is exactly Python's `del`). -/
def delEntry {α : Type} : List (String × α) → String → List (String × α)
  | [], _ => []
  | (k, v) :: t, q => if k = q then delEntry t q else (k, v) :: delEntry t q

/-- Number of bindings of a key. -/
def countKey {α : Type} : List (String × α) → String → Nat
  | [], _ => 0
  | (k, _) :: t, q => if k = q then countKey t q + 1 else countKey t q

/-- The `mkdir(exist_ok=True)`-style insertion into a set of names. -/
def insertNew (l : List String) (x : String) : List String :=
  if x ∈ l then l else l ++ [x]

/-! ## JSON values (for the project manifest `nxs.json`) -/

/-- JSON values; objects are ordered association lists, matching the
insertion-ordered dicts `json.load` produces. -/
inductive Json where
  | null
  | str (s : String)
  | num (n : Int)
  | jbool (b : Bool)
  | arr (xs : List Json)
  | obj (fields : List (String × Json))

/-- A manifest file's parsed content: the top-level JSON object's
fields. -/
abbrev Manifest := List (String × Json)

/-! ## Registry (`registry.json`) -/

/-- One entry of `registry["npm_packages"]` as written by
`try_install_npm` (lines 204-209). -/
structure NpmPkg where
  version : String
  installed : Bool
  path : String
deriving DecidableEq

/-- One entry of `registry["packages"]` as written by `publish`
(lines 362-368); `path` is optional because `try_install_custom`
checks `if "path" in pkg_info` (line 238). -/
structure CustomPkg where
  name : String
  version : String
  description : String
  path : Option String
deriving DecidableEq

/-- The in-memory registry: the three mappings of lines 37-41. -/
structure Registry where
  packages : List (String × CustomPkg)
  localReg : List (String × String)
  npm_packages : List (String × NpmPkg)
deriving DecidableEq

def emptyRegistry : Registry :=
  { packages := [], localReg := [], npm_packages := [] }

/-- The on-disk `registry.json`: absent, present but unparsable
(`json.load` raises), or present with parsed content. -/
inductive RegFile where
  | absent
  | corrupt (raw : String)
  | stored (r : Registry)
deriving DecidableEq

/-- The method `load_registry` (lines 31-42): parse the file if it exists
(`json.load` raising `JSONDecodeError` on corrupt input propagates and
aborts), else initialize the three empty mappings and immediately
`save_registry`.  Returns the in-memory registry and the resulting
file state. -/
def load_registry : RegFile → Except String (Registry × RegFile)
  | RegFile.absent => Except.ok (emptyRegistry, RegFile.stored emptyRegistry)
  | RegFile.corrupt _ => Except.error "JSONDecodeError"
  | RegFile.stored r => Except.ok (r, RegFile.stored r)

/-! ## Manager state and environment -/

/-- One entry of the project's `nxs_modules` directory: either a
symbolic link to `target`, or a full copy taken from `target`. -/
structure LinkEntry where
  target : String
  isSymlink : Bool
deriving DecidableEq

/-- The mutable world the manager owns: the in-memory registry, the
persisted `registry.json`, the content store `~/.nexus/packages`
(directory keys, plus which of them contain a transpiled `nxs`
subdirectory), the project's `nxs_modules` entries, and the project
manifest `nxs.json` (`none` = file absent). -/
structure PMState where
  registry : Registry
  registryFile : RegFile
  contentDirs : List String
  nxsDirs : List String
  modules : List (String × LinkEntry)
  manifest : Option Manifest

/-- The external world: npm query/pack/extract outcomes (a `none` /
`false` covers non-zero exit, timeout, and raised exceptions alike,
all caught by the `except` of lines 222-224), symlink support,
directories present in the project root, and existence/shape of
custom-package source paths. -/
structure Env where
  npmInfo : String → Option String
  npmPackOk : String → Bool
  tarballOk : String → Bool
  symlinkOk : Bool
  localDirs : List String
  srcExists : String → Bool
  srcHasNxs : String → Bool
  localHasNxs : String → Bool

/-- The content-store key `name@version`. -/
def npmKey (name v : String) : String := name ++ "@" ++ v

/-- Whether a symlink target currently resolves: it is a content
directory, or the `nxs` subdirectory of a content directory that has
one. -/
def nxsTargetOf : List String → String → Bool
  | [], _ => false
  | k :: r, t => if t = k ++ "/nxs" then true else nxsTargetOf r t

def targetExists (st : PMState) (t : String) : Bool :=
  if t ∈ st.contentDirs then true else nxsTargetOf st.nxsDirs t

/-- Python `Path.exists()` at a module entry: follows symlinks, so a symlink
whose target is gone reports `False`; a copied directory exists. -/
def entryExists (st : PMState) (e : LinkEntry) : Bool :=
  if e.isSymlink then targetExists st e.target else true

/-! ## Manifest sync (`update_package_json`, lines 290-304) -/

def skeletonManifest : Manifest :=
  [("dependencies", Json.obj []), ("devDependencies", Json.obj [])]

/-- The method `update_package_json` (lines 290-304): read `nxs.json` if present,
else start from the skeleton; ensure a `dependencies` key; set
`dependencies[name] = "*"`; rewrite the file.  If the `dependencies`
value is not an object, Python's item assignment raises `TypeError`. -/
def update_package_json (file : Option Manifest) (name : String) :
    Except String Manifest :=
  let pkg := match file with
    | some m => m
    | none => skeletonManifest
  let pkg1 := if (dictLookup pkg "dependencies").isSome then pkg
    else dictSet pkg "dependencies" (Json.obj [])
  match dictLookup pkg1 "dependencies" with
  | some (Json.obj d) =>
      Except.ok (dictSet pkg1 "dependencies" (Json.obj (dictSet d name (Json.str "*"))))
  | some _ => Except.error "TypeError"
  | none => Except.ok pkg1

/-! ## Linker (`link_package`, lines 260-288) -/

/-- Second half of `link_package`: the slot at `name` is free, so
create the symlink (full copy when symlinks are unsupported) and run
`update_package_json`; a `TypeError` from the manifest propagates
after the link is already in place. -/
def finishLink (st : PMState) (slOk : Bool) (name linkTarget : String) :
    PMState × Option String :=
  let st1 := { st with modules := st.modules ++ [(name, { target := linkTarget, isSymlink := slOk })] }
  match update_package_json st1.manifest name with
  | Except.ok m => ({ st1 with manifest := some m }, none)
  | Except.error e => (st1, some e)

/-- The method `link_package` (lines 260-288): prefer `path/nxs` when it exists;
remove a pre-existing entry whose referent exists (`link_path.exists()`
follows symlinks, so a dangling symlink is *not* removed and both
`os.symlink` and the `shutil.copytree` fallback then raise
`FileExistsError`); create the link; sync the manifest. -/
def link_package (st : PMState) (slOk : Bool) (name path : String) :
    PMState × Option String :=
  let linkTarget := if path ∈ st.nxsDirs then path ++ "/nxs" else path
  match dictLookup st.modules name with
  | some e =>
      if entryExists st e then
        finishLink { st with modules := delEntry st.modules name } slOk name linkTarget
      else
        (st, some "FileExistsError")
  | none => finishLink st slOk name linkTarget

/-! ## Resolvers and install (lines 115-258) -/

/-- Outcome of a resolver attempt: a returned boolean, or an uncaught
exception propagating out of the method. -/
inductive TryRes where
  | done (b : Bool)
  | exn (msg : String)
deriving DecidableEq

/-- The method `try_install_npm` (lines 151-226).  `npm info` failing (non-zero
exit, timeout, or exception) yields `False` with no state change; a
successful query creates the `name@version` content directory before
`npm pack`, so pack/tarball failures still leave that directory.  On
full success: extract, transpile (which creates the `nxs`
subdirectory), record the npm reference in the registry, save the
registry, then link.  The enclosing `except Exception` turns any
raised error (including one out of `link_package`) into `False`. -/
def try_install_npm (env : Env) (st : PMState) (name _version : String) :
    PMState × Bool :=
  match env.npmInfo name with
  | none => (st, false)
  | some v =>
    let key := npmKey name v
    let st1 := { st with contentDirs := insertNew st.contentDirs key }
    if env.npmPackOk name then
      if env.tarballOk name then
        let st2 := { st1 with nxsDirs := insertNew st1.nxsDirs key }
        let reg1 := { st2.registry with
          npm_packages := dictSet st2.registry.npm_packages name
            { version := v, installed := true, path := key } }
        let st3 := { st2 with registry := reg1, registryFile := RegFile.stored reg1 }
        match link_package st3 env.symlinkOk name key with
        | (st4, none) => (st4, true)
        | (st4, some _) => (st4, false)
      else (st1, false)
    else (st1, false)

/-- The method `try_install_custom` (lines 228-246).  A hit in
`registry["packages"]` creates the `name@version` content directory
*before* checking that the recorded source path still exists; a stale
or missing path then returns `False`, leaving the directory behind.
On success the source is copied in (`dirs_exist_ok=True` merges, so an
`nxs` subdirectory appears when the source has one) and the package is
linked; nothing is written to the registry.  No `except` here: an
exception out of `link_package` propagates. -/
def try_install_custom (env : Env) (st : PMState) (name version : String) :
    PMState × TryRes :=
  match dictLookup st.registry.packages name with
  | none => (st, TryRes.done false)
  | some info =>
    let key := npmKey name version
    let st1 := { st with contentDirs := insertNew st.contentDirs key }
    match info.path with
    | none => (st1, TryRes.done false)
    | some p =>
      if env.srcExists p then
        let st2 := if env.srcHasNxs p then
            { st1 with nxsDirs := insertNew st1.nxsDirs key } else st1
        match link_package st2 env.symlinkOk name key with
        | (st3, none) => (st3, TryRes.done true)
        | (st3, some e) => (st3, TryRes.exn e)
      else (st1, TryRes.done false)

/-- The method `try_install_local` (lines 248-258): a directory named like the
package under the project root is copied wholesale into the content
store under the bare name and linked; nothing is recorded in the
registry. -/
def try_install_local (env : Env) (st : PMState) (name : String) :
    PMState × TryRes :=
  if name ∈ env.localDirs then
    let st1 := { st with contentDirs := insertNew st.contentDirs name }
    let st2 := if env.localHasNxs name then
        { st1 with nxsDirs := insertNew st1.nxsDirs name } else st1
    match link_package st2 env.symlinkOk name name with
    | (st3, none) => (st3, TryRes.done true)
    | (st3, some e) => (st3, TryRes.exn e)
  else (st, TryRes.done false)

/-- The observable outcome of `install`: which branch printed its
success message, the final not-found report, or an uncaught
exception. -/
inductive InstallRes where
  | npmOk
  | customOk
  | localOk
  | notFound
  | exn (msg : String)
deriving DecidableEq

/-- The method `install` (lines 133-149): npm, then custom, then local, stopping
at the first resolver that returns `True`; if all three return
`False`, report that the package was not found. -/
def install (env : Env) (st : PMState) (name version : String) :
    PMState × InstallRes :=
  match try_install_npm env st name version with
  | (st1, true) => (st1, InstallRes.npmOk)
  | (st1, false) =>
    match try_install_custom env st1 name version with
    | (st2, TryRes.done true) => (st2, InstallRes.customOk)
    | (st2, TryRes.exn e) => (st2, InstallRes.exn e)
    | (st2, TryRes.done false) =>
      match try_install_local env st2 name with
      | (st3, TryRes.done true) => (st3, InstallRes.localOk)
      | (st3, TryRes.exn e) => (st3, InstallRes.exn e)
      | (st3, TryRes.done false) => (st3, InstallRes.notFound)

/-! ## Removal (`remove`, lines 306-325) -/

/-- The manifest half of `remove`: when `nxs.json` exists, delete
`dependencies[name]` when present and rewrite the file. -/
def removeManifestDep (m : Manifest) (name : String) : Manifest :=
  match dictLookup m "dependencies" with
  | some (Json.obj d) =>
      if (dictLookup d name).isSome then
        dictSet m "dependencies" (Json.obj (delEntry d name))
      else m
  | _ => m

/-- The method `remove` (lines 306-325): when `nxs_modules/name` exists it is
removed with `shutil.rmtree` — which raises
`OSError("Cannot call rmtree on a symbolic link")` when the entry is a
symlink, aborting before the manifest is touched.  A plain directory
is deleted; a missing (or dangling-symlink) entry is skipped.  Then
the dependency is dropped from the manifest.  The registry and the
content store are never touched. -/
def remove (st : PMState) (name : String) : PMState × Option String :=
  let manifestStep := fun (s : PMState) =>
    match s.manifest with
    | some m => ({ s with manifest := some (removeManifestDep m name) }, none)
    | none => (s, (none : Option String))
  match dictLookup st.modules name with
  | some e =>
      if entryExists st e then
        if e.isSymlink then
          (st, some "OSError: Cannot call rmtree on a symbolic link")
        else
          manifestStep { st with modules := delEntry st.modules name }
      else manifestStep st
  | none => manifestStep st

/-! ## Batch argument parsing (`add_dependencies`, lines 441-447) -/

/-- Split a character list at the *last* occurrence of `'@'`:
`some (before, after)` when the list contains one, `none` otherwise.
This is `str.rsplit("@", 1)` restricted to one separator. -/
def rsplitLastAux : List Char → Option (List Char × List Char)
  | [] => none
  | x :: xs =>
    match rsplitLastAux xs with
    | some (a, b) => some (x :: a, b)
    | none => if x = '@' then some ([], xs) else none

/-- The per-argument parse of `add_dependencies` (lines 443-446):
`version = "latest"` unless the argument contains `'@'`, in which case
`pkg, version = pkg.rsplit("@", 1)`. -/
def parsePkgArg (pkg : String) : String × String :=
  match rsplitLastAux pkg.data with
  | some (a, b) => (String.mk a, String.mk b)
  | none => (pkg, "latest")

/-- The method `add_dependencies` (lines 441-447): parse and install each
argument in turn; an uncaught exception from one `install` aborts the
loop. -/
def add_dependencies (env : Env) : PMState → List String → PMState × Option String
  | st, [] => (st, none)
  | st, p :: ps =>
    let nv := parsePkgArg p
    match install env st nv.1 nv.2 with
    | (st1, InstallRes.exn e) => (st1, some e)
    | (st1, _) => add_dependencies env st1 ps

/-! ## Source rewriter (`transpile_package`, lines 88-113) -/

/-- A file inside a package's content directory, by relative directory
components and file name. -/
structure SrcFile where
  dir : List String
  name : String
deriving DecidableEq

/-- Does the name end in `.js` (the `rglob("*.js")` pattern)? -/
def strEndsWith (s suffix : String) : Bool :=
  suffix.data.isSuffixOf s.data

/-- Python `name.startswith("_")` (line 95, the internal-use marker). -/
def underscoreName (n : String) : Bool :=
  match n.data with
  | c :: _ => c = '_'
  | [] => false

/-- Python `js_file.with_suffix('.nxs').name` for a `*.js` file: chop the
three characters of `.js` and append `.nxs`; only the base name is
kept (line 106). -/
def jsToNxs (n : String) : String :=
  String.mk (n.data.dropLast.dropLast.dropLast ++ ".nxs".data)

/-- Writing a file into the `nxs` output directory: a second write to
the same path overwrites the first, so the directory is a set of
paths. -/
def insertNewFile (l : List SrcFile) (f : SrcFile) : List SrcFile :=
  if f ∈ l then l else l ++ [f]

/-- One iteration of the `rglob("*.js")` loop of `transpile_package`:
skip names starting with `_`, skip files whose read/rewrite raised
(`ok f = false`, the `except` arm of lines 112-113), otherwise write
`<stem>.nxs` directly into the `nxs` directory — only
`js_file.with_suffix('.nxs').name` is used, so the file's relative
directory is dropped. -/
def transpileStep (ok : SrcFile → Bool) (acc : List SrcFile) (f : SrcFile) :
    List SrcFile :=
  if strEndsWith f.name ".js" && !underscoreName f.name && ok f then
    insertNewFile acc { dir := [], name := jsToNxs f.name }
  else acc

/-- The method `transpile_package` (lines 88-113), abstracted over per-file
success: the set of files found in the `nxs` output directory
afterward. -/
def transpileOut (files : List SrcFile) (ok : SrcFile → Bool) : List SrcFile :=
  files.foldl (transpileStep ok) []

/-! ## Concrete instances used by witnesses and counterexamples -/

/-- A registry holding two published custom packages: `widgets` (with
a live source path) and `lodash` (also available remotely). -/
def wRegistry : Registry :=
  { packages :=
      [("widgets", CustomPkg.mk "widgets" "2.1.0" "" (some "/pkgs/widgets")),
       ("lodash", CustomPkg.mk "lodash" "1.0.0" "" none)],
    localReg := [],
    npm_packages := [] }

/-- An external world in which npm knows `lodash` at `4.17.21`, packs
and extracts succeed, symlinks work, the project root holds a `mylib`
directory, and `/pkgs/widgets` exists on disk. -/
def wEnv : Env :=
  { npmInfo := fun n => if n = "lodash" then some "4.17.21" else none,
    npmPackOk := fun _ => true,
    tarballOk := fun _ => true,
    symlinkOk := true,
    localDirs := ["mylib"],
    srcExists := fun p => if p = "/pkgs/widgets" then true else false,
    srcHasNxs := fun _ => false,
    localHasNxs := fun _ => false }

/-- A fresh project state over `wRegistry`, with the registry file in
sync with memory. -/
def wState : PMState :=
  { registry := wRegistry, registryFile := RegFile.stored wRegistry,
    contentDirs := [], nxsDirs := [], modules := [], manifest := none }

/-- A state whose module entry for `pkg` is a symlink whose target
directory no longer exists on disk (a dangling link). -/
def danglingState : PMState :=
  { registry := emptyRegistry, registryFile := RegFile.stored emptyRegistry,
    contentDirs := ["pkg@1.0.0"], nxsDirs := [],
    modules := [("pkg", { target := "gone@0.0.1", isSymlink := true })],
    manifest := some [("dependencies", Json.obj [])] }

/-- The ordinary state right after a successful symlink-based install
of `mypkg`: a module symlink pointing at the live content directory
and a manifest dependency entry. -/
def installedState : PMState :=
  { registry := emptyRegistry, registryFile := RegFile.stored emptyRegistry,
    contentDirs := ["mypkg@1.0.0"], nxsDirs := [],
    modules := [("mypkg", { target := "mypkg@1.0.0", isSymlink := true })],
    manifest := some [("dependencies", Json.obj [("mypkg", Json.str "*")])] }

/-! ## State predicates used by the theorems -/

/-- The slot `nxs_modules/name` is empty, or its occupant's referent
exists (so `link_package`'s `link_path.exists()` check sees and
removes it). -/
def occupantOk (st : PMState) (name : String) : Bool :=
  match dictLookup st.modules name with
  | some e => entryExists st e
  | none => true

/-- The manifest is absent, lacks a `dependencies` key, or maps it to
an object — exactly the cases in which `update_package_json` does not
raise `TypeError`. -/
def manifestDepsOk : Option Manifest → Bool
  | none => true
  | some m =>
    match dictLookup m "dependencies" with
    | none => true
    | some (Json.obj _) => true
    | some _ => false

/-- The `dependencies` object of a manifest, `[]` when absent or not
an object. -/
def oldDeps (m : Manifest) : List (String × Json) :=
  match dictLookup m "dependencies" with
  | some (Json.obj d) => d
  | _ => []

/-! ## Dictionary lemmas -/

lemma dictLookup_dictSet_self {α : Type} (l : List (String × α)) (q : String) (v : α) :
    dictLookup (dictSet l q v) q = some v := by
  induction l with
  | nil => simp [dictSet, dictLookup]
  | cons h t ih =>
    obtain ⟨k, w⟩ := h
    by_cases hk : k = q
    · simp [dictSet, dictLookup, hk]
    · simp [dictSet, dictLookup, hk, ih]

lemma dictLookup_dictSet_ne {α : Type} (l : List (String × α)) (q k : String) (v : α)
    (h : k ≠ q) : dictLookup (dictSet l q v) k = dictLookup l k := by
  induction l with
  | nil =>
    simp only [dictSet, dictLookup]
    rw [if_neg (fun hq : q = k => h hq.symm)]
  | cons hd t ih =>
    obtain ⟨a, w⟩ := hd
    by_cases ha : a = q
    · subst ha
      simp only [dictSet, if_pos rfl, dictLookup]
      rw [if_neg (fun hq : a = k => h hq.symm), if_neg (fun hq : a = k => h hq.symm)]
    · simp only [dictSet, if_neg ha, dictLookup]
      by_cases hak : a = k
      · rw [if_pos hak, if_pos hak]
      · rw [if_neg hak, if_neg hak, ih]

lemma delEntry_of_lookup_none {α : Type} (l : List (String × α)) (q : String)
    (h : dictLookup l q = none) : delEntry l q = l := by
  induction l with
  | nil => rfl
  | cons hd t ih =>
    obtain ⟨k, v⟩ := hd
    by_cases hk : k = q
    · simp [dictLookup, hk] at h
    · simp only [dictLookup, if_neg hk] at h
      simp [delEntry, hk, ih h]

lemma dictLookup_delEntry_self {α : Type} (l : List (String × α)) (q : String) :
    dictLookup (delEntry l q) q = none := by
  induction l with
  | nil => rfl
  | cons hd t ih =>
    obtain ⟨k, v⟩ := hd
    by_cases hk : k = q
    · simp [delEntry, hk, ih]
    · simp [delEntry, dictLookup, hk, ih]

lemma countKey_delEntry {α : Type} (l : List (String × α)) (q : String) :
    countKey (delEntry l q) q = 0 := by
  induction l with
  | nil => rfl
  | cons hd t ih =>
    obtain ⟨k, v⟩ := hd
    by_cases hk : k = q
    · simp [delEntry, hk, ih]
    · simp [delEntry, countKey, hk, ih]

lemma dictLookup_append_of_none {α : Type} (l m : List (String × α)) (q : String)
    (h : dictLookup l q = none) : dictLookup (l ++ m) q = dictLookup m q := by
  induction l with
  | nil => rfl
  | cons hd t ih =>
    obtain ⟨k, v⟩ := hd
    by_cases hk : k = q
    · simp [dictLookup, hk] at h
    · simp only [dictLookup, if_neg hk] at h
      simp [dictLookup, hk, ih h]

lemma countKey_append {α : Type} (l m : List (String × α)) (q : String) :
    countKey (l ++ m) q = countKey l q + countKey m q := by
  induction l with
  | nil => simp [countKey]
  | cons hd t ih =>
    obtain ⟨k, v⟩ := hd
    by_cases hk : k = q
    · simp [countKey, hk, ih]; omega
    · simp [countKey, hk, ih]

lemma mem_insertNew_self (l : List String) (x : String) : x ∈ insertNew l x := by
  unfold insertNew
  split
  · assumption
  · simp

lemma mem_insertNew_of_mem (l : List String) (x y : String) (h : y ∈ l) :
    y ∈ insertNew l x := by
  unfold insertNew
  split
  · exact h
  · exact List.mem_append_left _ h

/-! ## Link-target and monotonicity lemmas -/

lemma nxsTargetOf_iff (l : List String) (t : String) :
    nxsTargetOf l t = true ↔ ∃ k, k ∈ l ∧ t = k ++ "/nxs" := by
  induction l with
  | nil => simp [nxsTargetOf]
  | cons k r ih =>
    by_cases hk : t = k ++ "/nxs"
    · simp [nxsTargetOf, hk]
    · simp only [nxsTargetOf, if_neg hk, ih]
      constructor
      · rintro ⟨a, ha, hta⟩
        exact ⟨a, List.mem_cons_of_mem _ ha, hta⟩
      · rintro ⟨a, ha, hta⟩
        rcases List.mem_cons.mp ha with h | h
        · exact absurd (h ▸ hta) hk
        · exact ⟨a, h, hta⟩

lemma targetExists_mono (st st' : PMState) (t : String)
    (hc : ∀ x, x ∈ st.contentDirs → x ∈ st'.contentDirs)
    (hn : ∀ x, x ∈ st.nxsDirs → x ∈ st'.nxsDirs)
    (h : targetExists st t = true) : targetExists st' t = true := by
  unfold targetExists at h ⊢
  split at h
  · rename_i hmem
    split
    · rfl
    · rename_i hmem'
      exact absurd (hc t hmem) hmem'
  · split
    · rfl
    · obtain ⟨k, hk, hkt⟩ := (nxsTargetOf_iff _ _).mp h
      exact (nxsTargetOf_iff _ _).mpr ⟨k, hn k hk, hkt⟩

lemma entryExists_mono (st st' : PMState) (e : LinkEntry)
    (hc : ∀ x, x ∈ st.contentDirs → x ∈ st'.contentDirs)
    (hn : ∀ x, x ∈ st.nxsDirs → x ∈ st'.nxsDirs)
    (h : entryExists st e = true) : entryExists st' e = true := by
  unfold entryExists at h ⊢
  split
  · split at h
    · exact targetExists_mono st st' _ hc hn h
    · rename_i h1 h2
      exact absurd h1 h2
  · rfl

lemma occupantOk_mono (st st' : PMState) (name : String)
    (hm : st'.modules = st.modules)
    (hc : ∀ x, x ∈ st.contentDirs → x ∈ st'.contentDirs)
    (hn : ∀ x, x ∈ st.nxsDirs → x ∈ st'.nxsDirs)
    (h : occupantOk st name = true) : occupantOk st' name = true := by
  unfold occupantOk at h ⊢
  rw [hm]
  split at h
  · rename_i e he
    exact entryExists_mono st st' e hc hn h
  · rfl

/-! ## `update_package_json` success lemma -/

lemma update_package_json_ok (file : Option Manifest) (name : String)
    (h : manifestDepsOk file = true) :
    ∃ m', update_package_json file name = Except.ok m' := by
  cases file with
  | none => exact ⟨_, rfl⟩
  | some m =>
    simp only [manifestDepsOk] at h
    unfold update_package_json
    simp only
    cases hd : dictLookup m "dependencies" with
    | none =>
      simp only [hd, Option.isSome_none, Bool.false_eq_true, if_false,
        dictLookup_dictSet_self]
      exact ⟨_, rfl⟩
    | some j =>
      rw [hd] at h
      simp only [Option.isSome_some]
      rw [if_true, hd]
      cases j with
      | obj d => exact ⟨_, rfl⟩
      | null => exact absurd h (by simp)
      | str s => exact absurd h (by simp)
      | num n => exact absurd h (by simp)
      | jbool b => exact absurd h (by simp)
      | arr xs => exact absurd h (by simp)

/-! ## `link_package` characterization -/

lemma link_package_ok (st : PMState) (slOk : Bool) (name path : String)
    (hocc : occupantOk st name = true) (hman : manifestDepsOk st.manifest = true) :
    ∃ m', link_package st slOk name path =
      ({ st with
          modules := delEntry st.modules name ++
            [(name, { target := if path ∈ st.nxsDirs then path ++ "/nxs" else path,
                      isSymlink := slOk })],
          manifest := some m' }, none) := by
  obtain ⟨m', hm'⟩ := update_package_json_ok st.manifest name hman
  unfold link_package
  simp only
  cases hl : dictLookup st.modules name with
  | none =>
    dsimp only
    rw [delEntry_of_lookup_none st.modules name hl]
    unfold finishLink
    simp only [hm']
    exact ⟨m', rfl⟩
  | some e =>
    unfold occupantOk at hocc
    rw [hl] at hocc
    dsimp only at hocc ⊢
    rw [if_pos hocc]
    unfold finishLink
    simp only [hm']
    exact ⟨m', rfl⟩

lemma try_install_npm_ok (env : Env) (st : PMState) (name version v : String)
    (hi : env.npmInfo name = some v) (hp : env.npmPackOk name = true)
    (ht : env.tarballOk name = true)
    (hocc : occupantOk st name = true) (hman : manifestDepsOk st.manifest = true) :
    ∃ m', try_install_npm env st name version =
      ({ registry := { st.registry with
            npm_packages := dictSet st.registry.npm_packages name
              { version := v, installed := true, path := npmKey name v } },
          registryFile := RegFile.stored { st.registry with
            npm_packages := dictSet st.registry.npm_packages name
              { version := v, installed := true, path := npmKey name v } },
          contentDirs := insertNew st.contentDirs (npmKey name v),
          nxsDirs := insertNew st.nxsDirs (npmKey name v),
          modules := delEntry st.modules name ++
            [(name, { target := npmKey name v ++ "/nxs", isSymlink := env.symlinkOk })],
          manifest := some m' }, true) := by
  unfold try_install_npm
  rw [hi]
  dsimp only
  rw [if_pos hp, if_pos ht]
  set st3 : PMState := PMState.mk
      (Registry.mk st.registry.packages st.registry.localReg
        (dictSet st.registry.npm_packages name (NpmPkg.mk v true (npmKey name v))))
      (RegFile.stored (Registry.mk st.registry.packages st.registry.localReg
        (dictSet st.registry.npm_packages name (NpmPkg.mk v true (npmKey name v)))))
      (insertNew st.contentDirs (npmKey name v))
      (insertNew st.nxsDirs (npmKey name v))
      st.modules st.manifest with hst3
  have hocc3 : occupantOk st3 name = true :=
    occupantOk_mono st st3 name rfl
      (fun x hx => mem_insertNew_of_mem _ _ x hx)
      (fun x hx => mem_insertNew_of_mem _ _ x hx) hocc
  have hman3 : manifestDepsOk st3.manifest = true := hman
  obtain ⟨m', hlink⟩ := link_package_ok st3 env.symlinkOk name (npmKey name v) hocc3 hman3
  rw [if_pos (mem_insertNew_self st.nxsDirs (npmKey name v) :
    npmKey name v ∈ st3.nxsDirs)] at hlink
  refine ⟨m', ?_⟩
  rw [hlink]

lemma try_install_npm_fail (env : Env) (st : PMState) (name version : String)
    (h : env.npmInfo name = none ∨ env.npmPackOk name = false ∨
      env.tarballOk name = false) :
    ∃ cd, try_install_npm env st name version = ({ st with contentDirs := cd }, false) ∧
      (∀ x, x ∈ st.contentDirs → x ∈ cd) := by
  unfold try_install_npm
  cases hi : env.npmInfo name with
  | none => exact ⟨st.contentDirs, rfl, fun x hx => hx⟩
  | some v =>
    dsimp only
    cases hp : env.npmPackOk name with
    | false =>
      rw [if_neg (by simp : ¬(false = true))]
      exact ⟨insertNew st.contentDirs (npmKey name v), rfl,
        fun x hx => mem_insertNew_of_mem _ _ x hx⟩
    | true =>
      rw [if_pos rfl]
      cases ht : env.tarballOk name with
      | false =>
        rw [if_neg (by simp : ¬(false = true))]
        exact ⟨insertNew st.contentDirs (npmKey name v), rfl,
          fun x hx => mem_insertNew_of_mem _ _ x hx⟩
      | true =>
        rcases h with h | h | h
        · rw [hi] at h; cases h
        · rw [hp] at h; cases h
        · rw [ht] at h; cases h

lemma link_match_tryres (stx : PMState) (slOk : Bool) (name path : String)
    (hocc : occupantOk stx name = true) (hman : manifestDepsOk stx.manifest = true) :
    ∃ st', (match link_package stx slOk name path with
        | (st3, none) => (st3, TryRes.done true)
        | (st3, some e) => (st3, TryRes.exn e)) = (st', TryRes.done true) ∧
      st'.registry = stx.registry ∧ st'.registryFile = stx.registryFile ∧
      st'.contentDirs = stx.contentDirs ∧ st'.nxsDirs = stx.nxsDirs ∧
      (∃ e, dictLookup st'.modules name = some e) := by
  obtain ⟨m', hlink⟩ := link_package_ok stx slOk name path hocc hman
  rw [hlink]
  refine ⟨_, rfl, rfl, rfl, rfl, rfl, ?_⟩
  refine ⟨LinkEntry.mk (if path ∈ stx.nxsDirs then path ++ "/nxs" else path) slOk, ?_⟩
  rw [dictLookup_append_of_none _ _ _ (dictLookup_delEntry_self _ _)]
  dsimp [dictLookup]
  rw [if_pos rfl]

lemma try_install_custom_found (env : Env) (st : PMState) (name version : String)
    (c : CustomPkg) (p : String)
    (hc : dictLookup st.registry.packages name = some c)
    (hp : c.path = some p) (hs : env.srcExists p = true)
    (hocc : occupantOk st name = true) (hman : manifestDepsOk st.manifest = true) :
    ∃ st', try_install_custom env st name version = (st', TryRes.done true) ∧
      st'.registry = st.registry ∧ st'.registryFile = st.registryFile ∧
      (∃ e, dictLookup st'.modules name = some e) := by
  unfold try_install_custom
  rw [hc]
  dsimp only
  rw [hp]
  dsimp only
  rw [if_pos hs]
  cases hn : env.srcHasNxs p with
  | true =>
    rw [if_pos rfl]
    set st2 : PMState := PMState.mk st.registry st.registryFile
        (insertNew st.contentDirs (npmKey name version))
        (insertNew st.nxsDirs (npmKey name version))
        st.modules st.manifest with hst2
    have hocc2 : occupantOk st2 name = true :=
      occupantOk_mono st st2 name rfl
        (fun x hx => mem_insertNew_of_mem _ _ x hx)
        (fun x hx => mem_insertNew_of_mem _ _ x hx) hocc
    obtain ⟨st', h1, h2, h3, _, _, h6⟩ :=
      link_match_tryres st2 env.symlinkOk name (npmKey name version) hocc2 hman
    exact ⟨st', h1, h2, h3, h6⟩
  | false =>
    rw [if_neg (by simp : ¬(false = true))]
    set st1 : PMState := PMState.mk st.registry st.registryFile
        (insertNew st.contentDirs (npmKey name version))
        st.nxsDirs st.modules st.manifest with hst1
    have hocc1 : occupantOk st1 name = true :=
      occupantOk_mono st st1 name rfl
        (fun x hx => mem_insertNew_of_mem _ _ x hx)
        (fun x hx => hx) hocc
    obtain ⟨st', h1, h2, h3, _, _, h6⟩ :=
      link_match_tryres st1 env.symlinkOk name (npmKey name version) hocc1 hman
    exact ⟨st', h1, h2, h3, h6⟩

lemma try_install_custom_absent (env : Env) (st : PMState) (name version : String)
    (h : dictLookup st.registry.packages name = none) :
    try_install_custom env st name version = (st, TryRes.done false) := by
  unfold try_install_custom
  rw [h]

lemma try_install_local_fail (env : Env) (st : PMState) (name : String)
    (h : name ∉ env.localDirs) :
    try_install_local env st name = (st, TryRes.done false) := by
  unfold try_install_local
  rw [if_neg h]

/-! ## Claim theorems -/

/-- Claim C2: for a name absent from the npm registry, from the
custom-package mapping, and from the project root's directories,
`install` reports not-found and returns the state — in particular the
persisted registry file and the project manifest — entirely
unchanged. -/
theorem install_absent_notFound (env : Env) (st : PMState) (name version : String)
    (h1 : env.npmInfo name = none)
    (h2 : dictLookup st.registry.packages name = none)
    (h3 : name ∉ env.localDirs) :
    install env st name version = (st, InstallRes.notFound) ∧
    (install env st name version).1.registryFile = st.registryFile ∧
    (install env st name version).1.manifest = st.manifest := by
  have hn : try_install_npm env st name version = (st, false) := by
    unfold try_install_npm
    rw [h1]
  have hall : install env st name version = (st, InstallRes.notFound) := by
    unfold install
    rw [hn]
    dsimp only
    rw [try_install_custom_absent env st name version h2]
    dsimp only
    rw [try_install_local_fail env st name h3]
  exact ⟨hall, by rw [hall], by rw [hall]⟩

/-- Witness for C2: the unknown name `ghost` is rejected with no state
change. -/
theorem install_absent_notFound_witness :
    install wEnv wState "ghost" "latest" = (wState, InstallRes.notFound) :=
  (install_absent_notFound wEnv wState "ghost" "latest" rfl (by decide)
    (by decide)).1

/-- Claim C1: `install` consults the resolvers in the fixed order
npm → custom → local.  When the remote resolver fully succeeds the
remote artifact is the one installed and linked (the module entry
points into the npm content directory's `nxs` subdirectory), even when
the name is also present in the custom mapping; when any remote step
fails (metadata query, pack, tarball extraction — each covering the
corresponding exception/timeout, all caught) the failure is non-fatal
and a custom entry with a live source path is installed instead. -/
theorem install_resolution_order (env : Env) (st : PMState) (name version : String) :
    (∀ v, env.npmInfo name = some v → env.npmPackOk name = true →
      env.tarballOk name = true → occupantOk st name = true →
      manifestDepsOk st.manifest = true →
      (dictLookup st.registry.packages name).isSome = true →
      (install env st name version).2 = InstallRes.npmOk ∧
      dictLookup (install env st name version).1.modules name =
        some { target := npmKey name v ++ "/nxs", isSymlink := env.symlinkOk }) ∧
    ((env.npmInfo name = none ∨ env.npmPackOk name = false ∨
        env.tarballOk name = false) →
      ∀ c p, dictLookup st.registry.packages name = some c → c.path = some p →
        env.srcExists p = true → occupantOk st name = true →
        manifestDepsOk st.manifest = true →
        (install env st name version).2 = InstallRes.customOk) := by
  constructor
  · intro v hi hp ht hocc hman _
    obtain ⟨m', hnpm⟩ := try_install_npm_ok env st name version v hi hp ht hocc hman
    unfold install
    rw [hnpm]
    dsimp only
    refine ⟨rfl, ?_⟩
    rw [dictLookup_append_of_none _ _ _ (dictLookup_delEntry_self _ _)]
    dsimp [dictLookup]
    rw [if_pos rfl]
  · intro hfail c p hc hp hs hocc hman
    obtain ⟨cd, hnpm, hcd⟩ := try_install_npm_fail env st name version hfail
    unfold install
    rw [hnpm]
    dsimp only
    have hocc1 : occupantOk { st with contentDirs := cd } name = true :=
      occupantOk_mono st _ name rfl hcd (fun x hx => hx) hocc
    obtain ⟨st', h1, _, _, _⟩ :=
      try_install_custom_found env { st with contentDirs := cd } name version c p
        hc hp hs hocc1 hman
    rw [h1]

/-- Witness for C1: `lodash` exists remotely at `4.17.21` and also in
the custom mapping; the remote artifact wins and its transpiled `nxs`
subdirectory is what gets linked. -/
theorem install_resolution_order_witness :
    (install wEnv wState "lodash" "latest").2 = InstallRes.npmOk ∧
    dictLookup (install wEnv wState "lodash" "latest").1.modules "lodash" =
      some { target := npmKey "lodash" "4.17.21" ++ "/nxs", isSymlink := true } :=
  (install_resolution_order wEnv wState "lodash" "latest").1 "4.17.21" (by decide)
    (by decide) (by decide) (by decide) (by decide) (by decide)

/-- Claim C5: after a successful remote install the registry holds an
npm entry for the name whose recorded version is the concrete version
`npm info` discovered (regardless of the requested version, so
`latest` is substituted), and the registry file on disk equals the
in-memory registry.  After a successful custom install the registry
still holds the custom entry (whose recorded version is the version
the publish recorded for the copied source) and, provided file and
memory agreed before the call, the file again equals memory — the
custom path itself writes nothing. -/
theorem install_registry_records (env : Env) (st : PMState) (name version : String) :
    (∀ v, env.npmInfo name = some v → env.npmPackOk name = true →
      env.tarballOk name = true → occupantOk st name = true →
      manifestDepsOk st.manifest = true →
      dictLookup (install env st name version).1.registry.npm_packages name =
        some { version := v, installed := true, path := npmKey name v } ∧
      (install env st name version).1.registryFile =
        RegFile.stored (install env st name version).1.registry) ∧
    ((env.npmInfo name = none ∨ env.npmPackOk name = false ∨
        env.tarballOk name = false) →
      ∀ c p, dictLookup st.registry.packages name = some c → c.path = some p →
        env.srcExists p = true → occupantOk st name = true →
        manifestDepsOk st.manifest = true →
        st.registryFile = RegFile.stored st.registry →
        dictLookup (install env st name version).1.registry.packages name = some c ∧
        (install env st name version).1.registryFile =
          RegFile.stored (install env st name version).1.registry) := by
  constructor
  · intro v hi hp ht hocc hman
    obtain ⟨m', hnpm⟩ := try_install_npm_ok env st name version v hi hp ht hocc hman
    unfold install
    rw [hnpm]
    dsimp only
    exact ⟨dictLookup_dictSet_self _ _ _, rfl⟩
  · intro hfail c p hc hp hs hocc hman hsync
    obtain ⟨cd, hnpm, hcd⟩ := try_install_npm_fail env st name version hfail
    unfold install
    rw [hnpm]
    dsimp only
    have hocc1 : occupantOk { st with contentDirs := cd } name = true :=
      occupantOk_mono st _ name rfl hcd (fun x hx => hx) hocc
    obtain ⟨st', h1, h2, h3, _⟩ :=
      try_install_custom_found env { st with contentDirs := cd } name version c p
        hc hp hs hocc1 hman
    rw [h1]
    dsimp only
    constructor
    · rw [h2]
      exact hc
    · rw [h3, h2]
      exact hsync

/-- Witness for C5: installing `widgets` (absent remotely, published
as a custom package at `2.1.0`) leaves the custom registry entry in
place and the registry file equal to memory. -/
theorem install_registry_records_witness :
    dictLookup (install wEnv wState "widgets" "latest").1.registry.packages
      "widgets" = some (CustomPkg.mk "widgets" "2.1.0" "" (some "/pkgs/widgets")) ∧
    (install wEnv wState "widgets" "latest").1.registryFile =
      RegFile.stored (install wEnv wState "widgets" "latest").1.registry :=
  (install_registry_records wEnv wState "widgets" "latest").2 (Or.inl (by decide))
    (CustomPkg.mk "widgets" "2.1.0" "" (some "/pkgs/widgets")) "/pkgs/widgets"
    (by decide) (by decide) (by decide) (by decide) (by decide) (by decide)

/-- Counterexample for C4: at a state whose module entry for `pkg` is
a symlink whose target no longer exists, `link_package` does *not*
remove the existing entry (the `link_path.exists()` check follows the
dangling link and reports false); both `os.symlink` and the
`shutil.copytree` fallback then raise `FileExistsError`, and the stale
entry — which is not a valid link — survives. -/
theorem link_package_dangling_cex :
    (link_package danglingState true "pkg" "pkg@1.0.0").2 = some "FileExistsError" ∧
    (link_package danglingState true "pkg" "pkg@1.0.0").1.modules =
      [("pkg", LinkEntry.mk "gone@0.0.1" true)] ∧
    entryExists danglingState (LinkEntry.mk "gone@0.0.1" true) = false :=
  ⟨rfl, rfl, rfl⟩

/-- Claim C4 (amended): when the pre-existing occupant of the link
slot, if any, still has a live referent, `link_package` removes it,
links to `path/nxs` when that subdirectory exists and to `path`
otherwise (symlink when supported, full copy otherwise), and leaves
exactly one valid link or copy under the package name. -/
theorem link_package_replaces (st : PMState) (slOk : Bool) (name path : String)
    (hocc : occupantOk st name = true)
    (hman : manifestDepsOk st.manifest = true)
    (hpath : path ∈ st.contentDirs) :
    (link_package st slOk name path).2 = none ∧
    countKey (link_package st slOk name path).1.modules name = 1 ∧
    ∃ e, dictLookup (link_package st slOk name path).1.modules name = some e ∧
      e.isSymlink = slOk ∧
      e.target = (if path ∈ st.nxsDirs then path ++ "/nxs" else path) ∧
      entryExists (link_package st slOk name path).1 e = true := by
  obtain ⟨m', hlink⟩ := link_package_ok st slOk name path hocc hman
  rw [hlink]
  dsimp only
  refine ⟨rfl, ?_, ?_⟩
  · rw [countKey_append, countKey_delEntry]
    dsimp [countKey]
    rw [if_pos rfl]
  · refine ⟨LinkEntry.mk (if path ∈ st.nxsDirs then path ++ "/nxs" else path) slOk,
      ?_, rfl, rfl, ?_⟩
    · rw [dictLookup_append_of_none _ _ _ (dictLookup_delEntry_self _ _)]
      dsimp [dictLookup]
      rw [if_pos rfl]
    · by_cases hn : path ∈ st.nxsDirs
      · rw [if_pos hn]
        unfold entryExists
        split
        · unfold targetExists
          dsimp only
          split
          · rfl
          · exact (nxsTargetOf_iff _ _).mpr ⟨path, hn, rfl⟩
        · rfl
      · rw [if_neg hn]
        unfold entryExists
        split
        · unfold targetExists
          dsimp only
          rw [if_pos hpath]
        · rfl

/-- Witness for C4 (amended): re-linking `mypkg` over its own live
symlink succeeds and leaves exactly one entry. -/
theorem link_package_replaces_witness :
    (link_package installedState true "mypkg" "mypkg@1.0.0").2 = none ∧
    countKey (link_package installedState true "mypkg" "mypkg@1.0.0").1.modules
      "mypkg" = 1 :=
  ⟨(link_package_replaces installedState true "mypkg" "mypkg@1.0.0" (by decide)
      (by decide) (by decide)).1,
   (link_package_replaces installedState true "mypkg" "mypkg@1.0.0" (by decide)
      (by decide) (by decide)).2.1⟩

/-- C6 failing input: after an ordinary symlink-based install of
`mypkg`, `remove("mypkg")` hits `shutil.rmtree` on the symlink, which
raises `OSError("Cannot call rmtree on a symbolic link")`; the module
entry and the manifest dependency both survive, contradicting the
documented remove contract. -/
theorem remove_symlink_raises :
    remove installedState "mypkg" =
      (installedState, some "OSError: Cannot call rmtree on a symbolic link") :=
  rfl

/-- Claim C7: `load_registry` fails the whole operation with an
explicit error on a corrupt (unparsable) registry file and never
proceeds with an empty registry; only an absent file initializes the
three empty mappings and immediately writes them, so any successful
load leaves the file present (stored). -/
theorem load_registry_contract :
    (∀ s, load_registry (RegFile.corrupt s) = Except.error "JSONDecodeError") ∧
    load_registry RegFile.absent =
      Except.ok (emptyRegistry, RegFile.stored emptyRegistry) ∧
    (∀ f r f', load_registry f = Except.ok (r, f') →
      ∃ r', f' = RegFile.stored r') := by
  refine ⟨fun s => rfl, rfl, fun f r f' h => ?_⟩
  cases f with
  | absent =>
    cases h
    exact ⟨_, rfl⟩
  | corrupt s => cases h
  | stored r0 =>
    cases h
    exact ⟨_, rfl⟩

/-- Witness for C7: a concrete corrupt file aborts, and the file that
an absent-file load writes is a stored one. -/
theorem load_registry_contract_witness :
    load_registry (RegFile.corrupt "\x7bnot json") =
      Except.error "JSONDecodeError" ∧
    (∃ r', RegFile.stored emptyRegistry = RegFile.stored r') :=
  ⟨load_registry_contract.1 "\x7bnot json",
   load_registry_contract.2.2 RegFile.absent emptyRegistry
     (RegFile.stored emptyRegistry) rfl⟩

/-- Claim C10: a custom-registry hit whose recorded source path no
longer exists returns failure (so resolution falls through), but the
versioned content directory `name@version` has already been created:
the failed resolve is not state-preserving whenever that directory was
new. -/
theorem try_install_custom_stale_dir (env : Env) (st : PMState)
    (name version : String) (c : CustomPkg) (p : String)
    (hc : dictLookup st.registry.packages name = some c)
    (hp : c.path = some p) (hs : env.srcExists p = false) :
    try_install_custom env st name version =
      ({ st with contentDirs := insertNew st.contentDirs (npmKey name version) },
        TryRes.done false) ∧
    npmKey name version ∈ (try_install_custom env st name version).1.contentDirs ∧
    (npmKey name version ∉ st.contentDirs →
      (try_install_custom env st name version).1 ≠ st) := by
  have h0 : try_install_custom env st name version =
      ({ st with contentDirs := insertNew st.contentDirs (npmKey name version) },
        TryRes.done false) := by
    unfold try_install_custom
    rw [hc]
    dsimp only
    rw [hp]
    dsimp only
    rw [if_neg (by simp [hs] : ¬env.srcExists p = true)]
  refine ⟨h0, ?_, ?_⟩
  · rw [h0]
    exact mem_insertNew_self st.contentDirs (npmKey name version)
  · intro hnot heq
    rw [h0] at heq
    dsimp only at heq
    exact hnot (congrArg PMState.contentDirs heq ▸
      mem_insertNew_self st.contentDirs (npmKey name version))

/-- Witness for C10: `widgets` recorded with a source path that no
longer exists leaves behind the empty `widgets@1.0.0` content
directory. -/
theorem try_install_custom_stale_dir_witness :
    npmKey "widgets" "1.0.0" ∈
      (try_install_custom
        (Env.mk (fun _ => none) (fun _ => true) (fun _ => true) true []
          (fun _ => false) (fun _ => false) (fun _ => false))
        wState "widgets" "1.0.0").1.contentDirs :=
  (try_install_custom_stale_dir
    (Env.mk (fun _ => none) (fun _ => true) (fun _ => true) true []
      (fun _ => false) (fun _ => false) (fun _ => false))
    wState "widgets" "1.0.0"
    (CustomPkg.mk "widgets" "2.1.0" "" (some "/pkgs/widgets")) "/pkgs/widgets"
    (by decide) (by decide) (by decide)).2.1

/-- Claim C3: on an existing manifest (whose `dependencies` value, if
present, is an object — otherwise the Python raises `TypeError`),
`update_package_json` leaves every other top-level key unchanged,
rewrites `dependencies` to the old object with `name` set to `"*"`
(every other dependency entry unchanged), and on a missing manifest
starts from the `{dependencies: {}, devDependencies: {}}` skeleton. -/
theorem update_package_json_sync (m m' : Manifest) (name : String)
    (hd : manifestDepsOk (some m) = true)
    (he : update_package_json (some m) name = Except.ok m') :
    (∀ k, k ≠ "dependencies" → dictLookup m' k = dictLookup m k) ∧
    dictLookup m' "dependencies" =
      some (Json.obj (dictSet (oldDeps m) name (Json.str "*"))) ∧
    dictLookup (dictSet (oldDeps m) name (Json.str "*")) name =
      some (Json.str "*") ∧
    (∀ k, k ≠ name →
      dictLookup (dictSet (oldDeps m) name (Json.str "*")) k =
        dictLookup (oldDeps m) k) ∧
    update_package_json none name = Except.ok
      [("dependencies", Json.obj [(name, Json.str "*")]),
       ("devDependencies", Json.obj [])] := by
  simp only [manifestDepsOk] at hd
  cases hd0 : dictLookup m "dependencies" with
  | none =>
    have hold : oldDeps m = [] := by unfold oldDeps; rw [hd0]
    unfold update_package_json at he
    simp only [hd0, Option.isSome_none, Bool.false_eq_true, if_false,
      dictLookup_dictSet_self] at he
    injection he with he
    subst he
    refine ⟨?_, ?_, ?_, ?_, rfl⟩
    · intro k hk
      rw [dictLookup_dictSet_ne _ _ _ _ hk, dictLookup_dictSet_ne _ _ _ _ hk]
    · rw [hold, dictLookup_dictSet_self]
    · rw [dictLookup_dictSet_self]
    · intro k hk
      rw [dictLookup_dictSet_ne _ _ _ _ hk]
  | some j =>
    rw [hd0] at hd
    cases j with
    | obj d =>
      have hold : oldDeps m = d := by unfold oldDeps; rw [hd0]
      unfold update_package_json at he
      simp only [hd0, Option.isSome_some, if_true] at he
      injection he with he
      subst he
      refine ⟨?_, ?_, ?_, ?_, rfl⟩
      · intro k hk
        rw [dictLookup_dictSet_ne _ _ _ _ hk]
      · rw [hold, dictLookup_dictSet_self]
      · rw [dictLookup_dictSet_self]
      · intro k hk
        rw [dictLookup_dictSet_ne _ _ _ _ hk]
    | null => simp at hd
    | str s => simp at hd
    | num n => simp at hd
    | jbool b => simp at hd
    | arr xs => simp at hd

/-- Witness for C3: a manifest holding only a `scripts` key keeps it
unchanged after the sync adds `dependencies.lodash = "*"`. -/
theorem update_package_json_sync_witness :
    dictLookup [("scripts", Json.obj [("build", Json.str "x")]),
        ("dependencies", Json.obj [("lodash", Json.str "*")])] "scripts" =
      dictLookup [("scripts", Json.obj [("build", Json.str "x")])] "scripts" :=
  (update_package_json_sync [("scripts", Json.obj [("build", Json.str "x")])]
    [("scripts", Json.obj [("build", Json.str "x")]),
      ("dependencies", Json.obj [("lodash", Json.str "*")])] "lodash"
    (by decide) rfl).1 "scripts" (by decide)

/-! ## Transpiler lemmas -/

lemma mem_insertNewFile_self (l : List SrcFile) (f : SrcFile) :
    f ∈ insertNewFile l f := by
  unfold insertNewFile
  split
  · assumption
  · simp

lemma mem_insertNewFile_of_mem (l : List SrcFile) (f x : SrcFile) (h : x ∈ l) :
    x ∈ insertNewFile l f := by
  unfold insertNewFile
  split
  · exact h
  · exact List.mem_append_left _ h

lemma mem_insertNewFile (l : List SrcFile) (f x : SrcFile)
    (h : x ∈ insertNewFile l f) : x ∈ l ∨ x = f := by
  unfold insertNewFile at h
  split at h
  · exact Or.inl h
  · rcases List.mem_append.mp h with h | h
    · exact Or.inl h
    · exact Or.inr (List.mem_singleton.mp h)

lemma mem_transpileStep_of_mem (ok : SrcFile → Bool) (acc : List SrcFile)
    (f x : SrcFile) (h : x ∈ acc) : x ∈ transpileStep ok acc f := by
  unfold transpileStep
  split
  · exact mem_insertNewFile_of_mem _ _ _ h
  · exact h

lemma mem_foldl_transpileStep_of_mem (ok : SrcFile → Bool) (files : List SrcFile) :
    ∀ acc x, x ∈ acc → x ∈ files.foldl (transpileStep ok) acc := by
  induction files with
  | nil => exact fun acc x h => h
  | cons f fs ih =>
    exact fun acc x h => ih _ x (mem_transpileStep_of_mem ok acc f x h)

lemma transpileOut_complete_aux (ok : SrcFile → Bool) (files : List SrcFile) :
    ∀ acc f, f ∈ files → strEndsWith f.name ".js" = true →
      underscoreName f.name = false → ok f = true →
      (SrcFile.mk [] (jsToNxs f.name)) ∈ files.foldl (transpileStep ok) acc := by
  induction files with
  | nil => intro acc f hf; cases hf
  | cons g gs ih =>
    intro acc f hf hjs hus hok
    rw [List.foldl_cons]
    rcases List.mem_cons.mp hf with h | h
    · have hcond : (strEndsWith f.name ".js" && !underscoreName f.name && ok f) = true := by
        rw [hjs, hus, hok]
        rfl
      apply mem_foldl_transpileStep_of_mem ok gs
      rw [← h]
      unfold transpileStep
      rw [if_pos hcond]
      exact mem_insertNewFile_self _ _
    · exact ih (transpileStep ok acc g) f h hjs hus hok

lemma transpileOut_sound_aux (ok : SrcFile → Bool) (files : List SrcFile) :
    ∀ acc x, x ∈ files.foldl (transpileStep ok) acc →
      x ∈ acc ∨ ∃ f, f ∈ files ∧ strEndsWith f.name ".js" = true ∧
        underscoreName f.name = false ∧ ok f = true ∧
        x = SrcFile.mk [] (jsToNxs f.name) := by
  induction files with
  | nil => exact fun acc x h => Or.inl h
  | cons g gs ih =>
    intro acc x h
    rcases ih (transpileStep ok acc g) x h with h1 | ⟨f, hf, h2, h3, h4, h5⟩
    · unfold transpileStep at h1
      split at h1
      · rcases mem_insertNewFile _ _ _ h1 with h2 | h2
        · exact Or.inl h2
        · rename_i hcond
          simp only [Bool.and_eq_true, Bool.not_eq_true'] at hcond
          obtain ⟨⟨ha, hb⟩, hc⟩ := hcond
          exact Or.inr ⟨g, List.mem_cons_self g gs, ha, hb, hc, h2⟩
      · exact Or.inl h1
    · exact Or.inr ⟨f, List.mem_cons_of_mem g hf, h2, h3, h4, h5⟩

/-- Counterexample for C8: a `.js` file inside a subdirectory is
written to the top of the `nxs` output directory under its bare name;
no output preserving the relative path `sub/` exists. -/
theorem transpile_flatten_cex :
    transpileOut [SrcFile.mk ["sub"] "a.js"] (fun _ => true) =
      [SrcFile.mk [] "a.nxs"] ∧
    ¬ (SrcFile.mk ["sub"] "a.nxs") ∈
      transpileOut [SrcFile.mk ["sub"] "a.js"] (fun _ => true) := by
  constructor
  · decide
  · decide

/-- Claim C8 (amended): every `.js` file whose name does not start
with `_` and whose per-file rewrite succeeds yields `<stem>.nxs`
written directly into the rewritten-sources subdirectory (the file's
relative directory is dropped, not preserved), and one file's failure
never prevents the other files from being rewritten; conversely every
output arises this way. -/
theorem transpile_flat_outputs (files : List SrcFile) (ok : SrcFile → Bool) :
    (∀ f, f ∈ files → strEndsWith f.name ".js" = true →
      underscoreName f.name = false → ok f = true →
      (SrcFile.mk [] (jsToNxs f.name)) ∈ transpileOut files ok) ∧
    (∀ g, g ∈ transpileOut files ok →
      g.dir = [] ∧ ∃ f, f ∈ files ∧ strEndsWith f.name ".js" = true ∧
        underscoreName f.name = false ∧ ok f = true ∧
        g.name = jsToNxs f.name) := by
  constructor
  · intro f hf h1 h2 h3
    exact transpileOut_complete_aux ok files [] f hf h1 h2 h3
  · intro g hg
    rcases transpileOut_sound_aux ok files [] g hg with h | ⟨f, hf, h1, h2, h3, h4⟩
    · cases h
    · subst h4
      exact ⟨rfl, f, hf, h1, h2, h3, rfl⟩

/-- Witness for C8 (amended): `sub/a.js` is rewritten to `a.nxs` even
though the rewrite of the sibling `b.js` fails. -/
theorem transpile_flat_outputs_witness :
    (SrcFile.mk [] "a.nxs") ∈
      transpileOut [SrcFile.mk ["sub"] "a.js", SrcFile.mk [] "b.js"]
        (fun f => !(f.name == "b.js")) :=
  (transpile_flat_outputs [SrcFile.mk ["sub"] "a.js", SrcFile.mk [] "b.js"]
      (fun f => !(f.name == "b.js"))).1
    (SrcFile.mk ["sub"] "a.js") (by decide) (by decide) (by decide) (by decide)

/-! ## `rsplit("@", 1)` lemmas -/

lemma rsplitLastAux_none (l : List Char) (h : rsplitLastAux l = none) : '@' ∉ l := by
  induction l with
  | nil => simp
  | cons x xs ih =>
    unfold rsplitLastAux at h
    cases h2 : rsplitLastAux xs with
    | some ab => rw [h2] at h; obtain ⟨a, b⟩ := ab; cases h
    | none =>
      rw [h2] at h
      dsimp only at h
      split at h
      · cases h
      · rename_i hx
        intro hmem
        rcases List.mem_cons.mp hmem with h3 | h3
        · exact hx h3.symm
        · exact ih h2 h3

lemma rsplitLastAux_spec (l : List Char) :
    ∀ a b, rsplitLastAux l = some (a, b) → a ++ '@' :: b = l ∧ '@' ∉ b := by
  induction l with
  | nil => intro a b h; cases h
  | cons x xs ih =>
    intro a b h
    unfold rsplitLastAux at h
    cases h2 : rsplitLastAux xs with
    | some ab =>
      obtain ⟨a', b'⟩ := ab
      rw [h2] at h
      dsimp only at h
      injection h with h
      rw [Prod.mk.injEq] at h
      obtain ⟨ha, hb⟩ := h
      subst ha
      subst hb
      obtain ⟨hcat, hmem⟩ := ih _ _ h2
      constructor
      · rw [List.cons_append, hcat]
      · exact hmem
    | none =>
      rw [h2] at h
      dsimp only at h
      split at h
      · rename_i hx
        injection h with h
        rw [Prod.mk.injEq] at h
        obtain ⟨ha, hb⟩ := h
        subst ha
        subst hb
        constructor
        · rw [List.nil_append, hx]
        · exact rsplitLastAux_none xs h2
      · cases h

/-- Claim C9: `add_dependencies` splits an argument containing `'@'`
at its *last* `'@'` (the part after the split contains no `'@'` and
re-concatenating restores the argument); consequently the scoped name
`@types/node` is parsed as the empty package name with version
`types/node`, and the batch install of `["@types/node"]` runs
`install("", "types/node")`. -/
theorem add_dependencies_at_split (s : String) :
    ('@' ∈ s.data →
      ((parsePkgArg s).1).data ++ '@' :: ((parsePkgArg s).2).data = s.data ∧
      '@' ∉ ((parsePkgArg s).2).data) ∧
    parsePkgArg "@types/node" = ("", "types/node") ∧
    (∀ env st, (add_dependencies env st ["@types/node"]).1 =
      (install env st "" "types/node").1) := by
  refine ⟨?_, by decide, ?_⟩
  · intro hmem
    unfold parsePkgArg
    cases hr : rsplitLastAux s.data with
    | none => exact absurd hmem (rsplitLastAux_none s.data hr)
    | some ab =>
      obtain ⟨a, b⟩ := ab
      dsimp only
      exact rsplitLastAux_spec s.data a b hr
  · intro env st
    unfold add_dependencies
    rw [(by decide : parsePkgArg "@types/node" = ("", "types/node"))]
    dsimp only
    cases hres : install env st "" "types/node" with
    | mk st1 r =>
      cases r with
      | npmOk => rfl
      | customOk => rfl
      | localOk => rfl
      | notFound => rfl
      | exn e => rfl

/-- Witness for C9: `a@1.0` splits into `a` and `1.0`. -/
theorem add_dependencies_at_split_witness :
    ((parsePkgArg "a@1.0").1).data ++ '@' :: ((parsePkgArg "a@1.0").2).data =
      "a@1.0".data ∧
    '@' ∉ ((parsePkgArg "a@1.0").2).data :=
  (add_dependencies_at_split "a@1.0").1 (by decide)
